import Mathlib

/-!
Shallow embedding of the instakit processor-composition core:
`src/instakit/abc/__init__.py` (Processor, Container, NOOp, Fork) and
`src/instakit/utils/pipeline.py` (Pipe, Pipeline, BandFork, Ink enums,
OverprintFork).  Python objects become Lean data, the mutable
`defaultdict`-backed Fork becomes explicit state passing, and a raised
exception becomes an explicit error value returned together with the
object state at the moment of the raise.
-/

set_option autoImplicit false

namespace Instakit

/-- Errors raised by the embedded code.  The Lean constructor names follow
the spec's taxonomy; the comment on each names the Python exception the
source actually raises. -/
inductive Err where
  | indexError      -- IndexError from `processor[-1]` on an empty list
  | typeError       -- TypeError from the BandFork mode setter
  | modeLocked      -- AttributeError from OverprintFork.set_mode_t
  | attributeError  -- AttributeError from Fork.__init__
  | bandMismatch    -- the spec's BandMismatchError (no Python counterpart)
  deriving DecidableEq, Repr

/-- Modelled from the spec: the color-mode collaborator
(`instakit.utils.mode.Mode`, not under src/).  A mode is a color model
carrying a canonical ordered band-label sequence (spec section 6). -/
inductive Mode where
  | RGB
  | CMYK
  | L
  deriving DecidableEq, Repr

/-- Modelled from the spec: `band_labels(mode)` is a fixed, order-significant
sequence of short label tokens, one per band of the model. -/
def Mode.bands : Mode → List String
  | .RGB  => ["R", "G", "B"]
  | .CMYK => ["C", "M", "Y", "K"]
  | .L    => ["L"]

/-- Modelled from the spec: `resolve(name_or_value)` turns a name string into
a mode and fails on unrecognized input (`Mode.for_string` in the source's
imports, not under src/).  Failure is modelled as `none`, which the mode
setter then rejects with its type error. -/
def Mode.forString : String → Option Mode
  | "RGB"  => some .RGB
  | "CMYK" => some .CMYK
  | "L"    => some .L
  | _      => none

/-- The table `ink_values` from `pipeline.py`: one RGB triple per ink
variant index. -/
def inkValues : List (Int × Int × Int) :=
  [ (255, 255, 255),    -- White
    (0,   250, 250),    -- Cyan
    (250, 0,   250),    -- Magenta
    (250, 250, 0),      -- Yellow
    (0,   0,   0),      -- Key (blacK)
    (255, 0,   0),      -- Red
    (0,   255, 0),      -- Green
    (0,   0,   255) ]   -- Blue

/-- The ink enum members of `CMYKInk` and `RGBInk` (both share the value
space of `ink_values`; each member is a singleton Variant-Processor). -/
inductive InkE where
  | WHITE
  | CYAN
  | MAGENTA
  | YELLOW
  | KEY
  | RED
  | GREEN
  | BLUE
  deriving DecidableEq, Repr

/-- The `value` of each enum member, as declared in `CMYKInk` / `RGBInk`. -/
def InkE.value : InkE → Nat
  | .WHITE   => 0
  | .CYAN    => 1
  | .MAGENTA => 2
  | .YELLOW  => 3
  | .KEY     => 4
  | .RED     => 5
  | .GREEN   => 6
  | .BLUE    => 7

/-- Indexing `ink_values[n]`: the color triple at a given enum value. -/
def inkValueColor (n : Nat) : Int × Int × Int :=
  inkValues.getD n (0, 0, 0)

/-- Embeds `Ink.rgb`: `ink_values[self.value]`. -/
def InkE.rgb (i : InkE) : Int × Int × Int :=
  inkValueColor i.value

/-- Embeds `CMYKInk.CMYK()`: the class-method tuple `(CYAN, MAGENTA, YELLOW, KEY)`. -/
def CMYKInkCMYK : List InkE := [.CYAN, .MAGENTA, .YELLOW, .KEY]

/-- Model of the external `PIL.ImageOps.colorize` on one channel: linear
interpolation from the black-argument color at gray level 0 to the
white-argument color at gray level 255. -/
def colorizeChannel (black white : Int) (g : Nat) : Int :=
  black + (Int.ofNat g) * (white - black) / 255

/-- Model of the external `PIL.ImageOps.colorize` (two-color form): maps each
gray pixel to the per-channel interpolation between the black-argument
triple and the white-argument triple. -/
def colorize (gray : List Nat) (black white : Int × Int × Int) : List (Int × Int × Int) :=
  gray.map (fun g =>
    (colorizeChannel black.1 white.1 g,
     colorizeChannel black.2.1 white.2.1 g,
     colorizeChannel black.2.2 white.2.2 g))

/-- Modelled from the spec: `Mode.L.process` produces the grayscale rendering
of the input (spec section 4.1); on an image already given as a list of
gray levels it is the identity. -/
def ModeL.process (image : List Nat) : List Nat := image

/-- Embeds `Ink.process` from `pipeline.py`:
`ImageOps.colorize(Mode.L.process(image), InkType(0).rgb(), InkType(self.value).rgb())`.
`InkType(0)` is the member with enum value 0, i.e. WHITE, in both `CMYKInk`
and `RGBInk`, so the low end of the scale is `ink_values[0]`. -/
def Ink.process (i : InkE) (image : List Nat) : List (Int × Int × Int) :=
  colorize (ModeL.process image) (inkValueColor 0) (inkValueColor i.value)

/-- The claim's reading of `Ink.process`, written from the spec's words:
colorize the grayscale rendering on a scale between black `(0,0,0)` as the
low end and the variant's resolved color as the high end. -/
def Ink.processSpecBlackLow (i : InkE) (image : List Nat) : List (Int × Int × Int) :=
  colorize (ModeL.process image) (0, 0, 0) (inkValueColor i.value)

/-- Processor values stored in containers.  `noop` is a `NOOp()` instance,
`atom` an arbitrary external concrete processor (e.g. a ditherer), `ink` an
ink enum member (a shared singleton), `pipe` a mutable `Pipeline` holding
its list of sub-processors.  The `Nat` ids distinguish separately
constructed instances, mirroring Python object identity. -/
inductive Proc where
  | noop (id : Nat)
  | atom (tag : Nat) (id : Nat)
  | ink (i : InkE)
  | pipe (steps : List Proc)
  deriving Repr

/-- Structural equality on processor values.  Together with the instance
ids this mirrors Python object identity: two references are the same
object exactly when the model terms are equal. -/
def Proc.beqF : Proc → Proc → Bool
  | .noop a, .noop b => a == b
  | .atom t a, .atom u b => t == u && a == b
  | .ink i, .ink j => i == j
  | .pipe [], .pipe [] => true
  | .pipe (p :: ps), .pipe (q :: qs) => Proc.beqF p q && Proc.beqF (.pipe ps) (.pipe qs)
  | _, _ => false

theorem Proc.beqF_iff : ∀ (p q : Proc), Proc.beqF p q = true ↔ p = q
  | .noop a, .noop b => by simp [Proc.beqF]
  | .noop _, .atom _ _ => by simp [Proc.beqF]
  | .noop _, .ink _ => by simp [Proc.beqF]
  | .noop _, .pipe _ => by simp [Proc.beqF]
  | .atom _ _, .noop _ => by simp [Proc.beqF]
  | .atom t a, .atom u b => by simp [Proc.beqF]
  | .atom _ _, .ink _ => by simp [Proc.beqF]
  | .atom _ _, .pipe _ => by simp [Proc.beqF]
  | .ink _, .noop _ => by simp [Proc.beqF]
  | .ink i, .ink j => by simp [Proc.beqF]
  | .ink _, .atom _ _ => by simp [Proc.beqF]
  | .ink _, .pipe _ => by simp [Proc.beqF]
  | .pipe _, .noop _ => by simp [Proc.beqF]
  | .pipe _, .atom _ _ => by simp [Proc.beqF]
  | .pipe _, .ink _ => by simp [Proc.beqF]
  | .pipe [], .pipe [] => by simp [Proc.beqF]
  | .pipe [], .pipe (_ :: _) => by simp [Proc.beqF]
  | .pipe (_ :: _), .pipe [] => by simp [Proc.beqF]
  | .pipe (p :: ps), .pipe (q :: qs) => by
      have h1 := Proc.beqF_iff p q
      have h2 := Proc.beqF_iff (.pipe ps) (.pipe qs)
      simp only [Proc.beqF, Bool.and_eq_true, h1] at *
      constructor
      · rintro ⟨rfl, h⟩
        have := h2.mp h
        simp_all
      · rintro h
        cases h
        exact ⟨rfl, h2.mpr rfl⟩

instance : DecidableEq Proc :=
  fun p q => decidable_of_iff _ (Proc.beqF_iff p q)

/-- The default factory of a Fork after `Fork.__init__` has normalized it:
either the `NOOp` class (from passing `None` or `NOOp`) or some other
callable; a callable is modelled by the instances it constructs, one per
invocation counter so that every call yields a fresh object. -/
inductive Factory where
  | noopF
  | atomF (tag : Nat)
  deriving DecidableEq, Repr

/-- Invoking the default factory with the fork's fresh-instance counter. -/
def Factory.make : Factory → Nat → Proc
  | .noopF, n => .noop n
  | .atomF t, n => .atom t n

/-- The mutable state of a `Fork` / `BandFork` / `OverprintFork`:
the `defaultdict` contents as an insertion-ordered association list, the
current `mode_t`, the default factory, a counter supplying fresh instance
ids, and the number of default-factory invocations so far. -/
structure ForkState where
  entries : List (String × Proc)
  mode_t : Mode
  factory : Factory
  nextId : Nat
  calls : Nat
  deriving DecidableEq, Repr

/-- Python `dict` lookup on the insertion-ordered entry list. -/
def lookupE : List (String × Proc) → String → Option Proc
  | [], _ => none
  | (k', v) :: rest, k => if k' = k then some v else lookupE rest k

/-- Python `dict` assignment: an existing key keeps its position and gets
the new value; a new key is appended at the end. -/
def updE : List (String × Proc) → String → Proc → List (String × Proc)
  | [], k, v => [(k, v)]
  | (k', v') :: rest, k, v =>
      if k' = k then (k, v) :: rest else (k', v') :: updE rest k v

/-- The keys of the fork's mapping, in insertion order. -/
def ForkState.keys (st : ForkState) : List String :=
  st.entries.map Prod.fst

/-- Embeds `Fork.__getitem__` = `defaultdict.__getitem__`: a present key returns
its stored value unchanged; a missing key invokes the default factory
once, memoizes the fresh instance under the key, and returns it. -/
def ForkState.getItem (st : ForkState) (idx : String) : Proc × ForkState :=
  match lookupE st.entries idx with
  | some v => (v, st)
  | none =>
      let v := st.factory.make st.nextId
      (v, { st with entries := updE st.entries idx v,
                    nextId := st.nextId + 1,
                    calls := st.calls + 1 })

/-- A value on the right-hand side of `fork[key] = value`: `None`, the
`NOOp` class object, or a processor instance. -/
inductive AssignVal where
  | noneA
  | noopClassA
  | procA (p : Proc)
  deriving DecidableEq, Repr

/-- Embeds `Fork.__setitem__`: `None` and the `NOOp` class normalize to a freshly
constructed `NOOp()` instance; any other value is stored as given. -/
def ForkState.setItem (st : ForkState) (idx : String) (value : AssignVal) : ForkState :=
  match value with
  | .noneA | .noopClassA =>
      { st with entries := updE st.entries idx (.noop st.nextId),
                nextId := st.nextId + 1 }
  | .procA p => { st with entries := updE st.entries idx p }

/-- Embeds `Fork.get`: `dict.get` with a fallback — returns the stored value when
the key is present and the supplied default otherwise, never touching the
default factory and never inserting.  The unchanged state is returned
alongside to make the frame property explicit. -/
def ForkState.get (st : ForkState) (idx : String) (default_value : Proc) :
    Proc × ForkState :=
  ((lookupE st.entries idx).getD default_value, st)

/-- Embeds `Fork.__len__` = `len(self.dict)`. -/
def ForkState.lenF (st : ForkState) : Nat :=
  st.entries.length

/-- An arbitrary Python value handed to `Fork.__contains__`: the claims
exercise it with band-label strings and with processor instances. -/
inductive PyVal where
  | str (s : String)
  | proc (p : Proc)
  deriving DecidableEq, Repr

/-- Embeds `Fork.__contains__` = `defaultdict.__contains__`: `value in self.dict`
tests `value` against the *keys* of the mapping.  The keys are strings, and
a processor object is never equal to a string, so a processor argument
always tests false. -/
def ForkState.containsV (st : ForkState) (value : PyVal) : Bool :=
  match value with
  | .str s => (st.keys).any (fun k => k = s)
  | .proc _ => false

/-- Embeds `Pipeline.__contains__` (and `Pipe.__contains__`): `value in self.list`
tests `value` against the stored sub-processors. -/
def Pipeline.containsV (steps : List Proc) (value : Proc) : Bool :=
  steps.any (fun q => q = value)

/-- The `default_factory` argument handed to `Fork.__init__`, split by the
only properties the constructor inspects: being the `None` / `NOOp`
sentinel, being some other callable, or being non-callable. -/
inductive FactoryArg where
  | noneArg
  | noopClassArg
  | callableArg (f : Factory)
  | nonCallableArg (tag : Nat)
  deriving DecidableEq, Repr

/-- Embeds `Fork.__init__` (with the `mode_t` of `BandFork` made explicit): `None` and
`NOOp` normalize to the `NOOp` class; a non-callable factory raises
`AttributeError` before any state exists, so no partial object is
produced; otherwise the backing `defaultdict` is created with the given
initial assignments. -/
def Fork.init (default_factory : FactoryArg) (init : List (String × Proc))
    (mode : Mode) : Except Err ForkState :=
  match default_factory with
  | .noneArg | .noopClassArg =>
      .ok { entries := init, mode_t := mode, factory := .noopF, nextId := 0, calls := 0 }
  | .callableArg f =>
      .ok { entries := init, mode_t := mode, factory := f, nextId := 0, calls := 0 }
  | .nonCallableArg _ => .error .attributeError

/-- Embeds `Pipe.process`: the loop
`for p in self.iterate(): image = p.process(image)` over the stored tuple,
with each sub-processor taken through its `process(image) -> image`
contract. -/
def Pipe.process {α : Type} : List (α → α) → α → α
  | [], image => image
  | p :: rest, image => Pipe.process rest (p image)

/-- Embeds `Pipeline.process`: the same loop as `Pipe.process`, over the stored
list. -/
def Pipeline.process {α : Type} : List (α → α) → α → α
  | [], image => image
  | p :: rest, image => Pipeline.process rest (p image)

/-- A value assigned to `fork.mode`: a `Mode` member, a name string, or
some other object (tagged). -/
inductive MVal where
  | modeV (m : Mode)
  | strV (s : String)
  | otherV (tag : Nat)
  deriving DecidableEq, Repr

/-- The body of the `BandFork.mode` setter, parameterized by the
dynamically dispatched `set_mode_t`: a string argument is first resolved
via `Mode.for_string`; a `Mode` value different from the current `mode_t`
is handed to `set_mode_t`; the same mode is a no-op; anything else raises
`TypeError` before any mutation.  The returned state is the fork's state
when the call finishes, normally or by raising. -/
def modeSetter (set_mode_t : ForkState → Mode → ForkState × Option Err)
    (st : ForkState) (value : MVal) : ForkState × Option Err :=
  let resolved : Option Mode :=
    match value with
    | .modeV m => some m
    | .strV s => Mode.forString s
    | .otherV _ => none
  match resolved with
  | some m => if m ≠ st.mode_t then set_mode_t st m else (st, none)
  | none => (st, some .typeError)

/-- Embeds `BandFork.set_mode_t`: assign the new mode (the instance attribute that
shadows the class default). -/
def BandFork.set_mode_t (st : ForkState) (value : Mode) : ForkState × Option Err :=
  ({ st with mode_t := value }, none)

/-- Embeds the `BandFork.mode` setter. -/
def BandFork.setMode (st : ForkState) (value : MVal) : ForkState × Option Err :=
  modeSetter BandFork.set_mode_t st value

/-- Embeds `BandFork.band_labels`: `self.mode_t.bands`. -/
def ForkState.band_labels (st : ForkState) : List String :=
  st.mode_t.bands

/-- Embeds `OverprintFork.set_mode_t`: raise (AttributeError in the source, the
spec's locked-state error) on any mode other than CMYK; on CMYK it does
nothing — in particular it never assigns. -/
def OverprintFork.set_mode_t (st : ForkState) (value : Mode) : ForkState × Option Err :=
  if value ≠ Mode.CMYK then (st, some .modeLocked) else (st, none)

/-- Embeds the inherited `mode` setter of `OverprintFork`, dispatching to the
overridden `set_mode_t`. -/
def OverprintFork.setMode (st : ForkState) (value : MVal) : ForkState × Option Err :=
  modeSetter OverprintFork.set_mode_t st value

/-- Python `is` against a specific ink enum member: enum members are
singletons, so identity with `ink` holds exactly for that member itself. -/
def isInkMember (p : Proc) (i : InkE) : Bool :=
  match p with
  | .ink j => j = i
  | _ => false

/-- One iteration of the `OverprintFork.apply_CMYK_inks` loop for a band
label and its matching ink: fetch (auto-vivifying) the band's processor;
if it has `append` (a Pipeline), append the ink unless the last step
already is that ink (`processor[-1]` raises IndexError on an empty
pipeline); otherwise wrap it in a fresh two-step `Pipeline([processor, ink])`. -/
def OverprintFork.applyInkBand (st : ForkState) (band_label : String) (inkM : InkE) :
    ForkState × Option Err :=
  match st.getItem band_label with
  | (processor, st1) =>
    match processor with
    | .pipe steps =>
        match steps.getLast? with
        | none => (st1, some .indexError)
        | some lastStep =>
            if isInkMember lastStep inkM then (st1, none)
            else (st1.setItem band_label (.procA (.pipe (steps ++ [.ink inkM]))), none)
    | p => (st1.setItem band_label (.procA (.pipe [p, .ink inkM])), none)

/-- The `apply_CMYK_inks` loop over the zipped band/ink pairs, stopping at
the first raised error (the state at that point is returned with it). -/
def OverprintFork.applyGo : ForkState → List (String × InkE) → ForkState × Option Err
  | st, [] => (st, none)
  | st, (l, i) :: rest =>
      match OverprintFork.applyInkBand st l i with
      | (st', none) => OverprintFork.applyGo st' rest
      | (st', some e) => (st', some e)

/-- Embeds `OverprintFork.apply_CMYK_inks`: iterate over
`zip(self.band_labels, type(self).inks)`. -/
def OverprintFork.applyCMYKInks (st : ForkState) : ForkState × Option Err :=
  OverprintFork.applyGo st (st.mode_t.bands.zip CMYKInkCMYK)

/-- Invoking `apply_CMYK_inks` `n` times in sequence, stopping at the
first error. -/
def OverprintFork.applyN : Nat → ForkState → ForkState × Option Err
  | 0, st => (st, none)
  | n + 1, st =>
      match OverprintFork.applyCMYKInks st with
      | (st', none) => OverprintFork.applyN n st'
      | (st', some e) => (st', some e)

/-- The band invariant of the ink-idempotence claim: the band's stored
processor is a pipeline whose last step is the matching ink variant. -/
def bandInkTailB (st : ForkState) (band_label : String) (i : InkE) : Bool :=
  match lookupE st.entries band_label with
  | some (.pipe steps) =>
      match steps.getLast? with
      | some lastStep => isInkMember lastStep i
      | none => false
  | _ => false

/-- Embeds `Fork.update` = `dict.update` over the backing `defaultdict`: each
pair is assigned in order (no `__setitem__` normalization is involved). -/
def ForkState.updateF (st : ForkState) (items : List (String × Proc)) : ForkState :=
  items.foldl (fun s kv => { s with entries := updE s.entries kv.1 kv.2 }) st

/-- Embeds `OverprintFork.update`: the inherited update followed by
`apply_CMYK_inks`. -/
def OverprintFork.updateF (st : ForkState) (items : List (String × Proc)) :
    ForkState × Option Err :=
  OverprintFork.applyCMYKInks (ForkState.updateF st items)

/-- The `BandFork.process` zip loop,
`for processor, band in zip(self.iterate(), self.split(image))`:
`iterate()` lazily yields `self[band_label]` (auto-vivifying) per band
label, and `zip` pulls a processor first and then a band, stopping as soon
as either side is exhausted.  The per-processor behaviour is the abstract
`process(image) -> image` contract `run`. -/
def BandFork.zipProcess {Img : Type} (run : Proc → Img → Img) :
    ForkState → List String → List Img → List Img × ForkState
  | st, [], _ => ([], st)
  | st, l :: ls, bands =>
      match st.getItem l with
      | (p, st1) =>
          match bands with
          | [] => ([], st1)
          | b :: bs =>
              match BandFork.zipProcess run st1 ls bs with
              | (processed, st2) => (run p b :: processed, st2)

/-- Embeds `BandFork.process`: zip the iterated processors with `split(image)`
and hand the processed bands to `compose`.  `split` and `compose` are the
abstract `Fork` methods (delegating to the external color-mode
collaborator in `BandFork`, and to GCR / multiply-blend in
`OverprintFork`), so they are parameters here. -/
def BandFork.processWith {Img : Type} (run : Proc → Img → Img)
    (split : Img → List Img) (compose : List Img → Img)
    (st : ForkState) (image : Img) : Img × ForkState :=
  match BandFork.zipProcess run st st.mode_t.bands (split image) with
  | (processed, st') => (compose processed, st')

/-- Modelled from the spec: the claimed behaviour of `BandFork.process`
under a band-count mismatch — `split` producing a number of outputs
different from the number of resolved processors (`len(band_labels)`) is
a `BandMismatchError`, never a silent truncation. -/
def BandFork.processSpecChecked {Img : Type} (run : Proc → Img → Img)
    (split : Img → List Img) (compose : List Img → Img)
    (st : ForkState) (image : Img) : Except Err (Img × ForkState) :=
  if (split image).length = st.mode_t.bands.length then
    .ok (BandFork.processWith run split compose st image)
  else
    .error .bandMismatch

/-! ### Association-list and Fork-state lemmas -/

theorem lookupE_updE_self : ∀ (es : List (String × Proc)) (k : String) (v : Proc),
    lookupE (updE es k v) k = some v
  | [], k, v => by simp [updE, lookupE]
  | (k', v') :: rest, k, v => by
      by_cases h : k' = k
      · simp [updE, lookupE, h]
      · simp only [updE, lookupE, h, if_false]
        simpa [lookupE, h] using lookupE_updE_self rest k v

theorem lookupE_updE_other : ∀ (es : List (String × Proc)) (k k' : String) (v : Proc),
    k' ≠ k → lookupE (updE es k v) k' = lookupE es k'
  | [], k, k', v, h => by simp [updE, lookupE, Ne.symm h]
  | (k₀, v₀) :: rest, k, k', v, h => by
      by_cases h0 : k₀ = k
      · subst h0
        simp [updE, lookupE, Ne.symm h]
      · simp only [updE, lookupE, h0, if_false]
        by_cases h1 : k₀ = k'
        · simp [lookupE, h1]
        · simp only [lookupE, h1, if_false]
          exact lookupE_updE_other rest k k' v h

theorem updE_length_missing : ∀ (es : List (String × Proc)) (k : String) (v : Proc),
    lookupE es k = none → (updE es k v).length = es.length + 1
  | [], _, _, _ => rfl
  | (k₀, v₀) :: rest, k, v, h => by
      by_cases h0 : k₀ = k
      · simp [lookupE, h0] at h
      · simp only [updE, h0, if_false, List.length_cons]
        simp only [lookupE, h0, if_false] at h
        rw [updE_length_missing rest k v h]

theorem getItem_mode (st : ForkState) (k : String) :
    ((st.getItem k).2).mode_t = st.mode_t := by
  unfold ForkState.getItem
  cases lookupE st.entries k <;> rfl

theorem getItem_lookup_self (st : ForkState) (k : String) :
    lookupE ((st.getItem k).2).entries k = some (st.getItem k).1 := by
  unfold ForkState.getItem
  cases h : lookupE st.entries k
  · simpa using lookupE_updE_self st.entries k _
  · simpa using h

theorem getItem_lookup_other (st : ForkState) (k k' : String) (h : k' ≠ k) :
    lookupE ((st.getItem k).2).entries k' = lookupE st.entries k' := by
  unfold ForkState.getItem
  cases hl : lookupE st.entries k
  · simpa using lookupE_updE_other st.entries k k' _ h
  · rfl

theorem setItem_proc_mode (st : ForkState) (k : String) (p : Proc) :
    (st.setItem k (.procA p)).mode_t = st.mode_t := rfl

theorem setItem_proc_lookup_self (st : ForkState) (k : String) (p : Proc) :
    lookupE (st.setItem k (.procA p)).entries k = some p := by
  simpa [ForkState.setItem] using lookupE_updE_self st.entries k p

theorem setItem_proc_lookup_other (st : ForkState) (k k' : String) (p : Proc)
    (h : k' ≠ k) :
    lookupE (st.setItem k (.procA p)).entries k' = lookupE st.entries k' := by
  simpa [ForkState.setItem] using lookupE_updE_other st.entries k k' p h

/-! ### Lemmas about one step of `apply_CMYK_inks` -/

theorem bandInkTailB_congr (st1 st2 : ForkState) (l : String) (i : InkE)
    (h : lookupE st2.entries l = lookupE st1.entries l) :
    bandInkTailB st2 l i = bandInkTailB st1 l i := by
  unfold bandInkTailB
  rw [h]

theorem applyInkBand_mode (st : ForkState) (l : String) (i : InkE) :
    ((OverprintFork.applyInkBand st l i).1).mode_t = st.mode_t := by
  unfold OverprintFork.applyInkBand
  cases hgi : st.getItem l with
  | mk p st1 =>
    have hm : st1.mode_t = st.mode_t := by
      have := getItem_mode st l
      rw [hgi] at this
      exact this
    cases p with
    | pipe steps =>
        cases hls : steps.getLast? with
        | none => simp only [hls]; exact hm
        | some lastStep =>
            simp only [hls]
            by_cases hi : isInkMember lastStep i = true
            · rw [if_pos hi]; exact hm
            · rw [if_neg hi]; simpa [setItem_proc_mode] using hm
    | noop a => simpa [setItem_proc_mode] using hm
    | atom t a => simpa [setItem_proc_mode] using hm
    | ink j => simpa [setItem_proc_mode] using hm

theorem applyInkBand_lookup_other (st : ForkState) (l k : String) (i : InkE)
    (h : k ≠ l) :
    lookupE ((OverprintFork.applyInkBand st l i).1).entries k = lookupE st.entries k := by
  unfold OverprintFork.applyInkBand
  cases hgi : st.getItem l with
  | mk p st1 =>
    have hlk : lookupE st1.entries k = lookupE st.entries k := by
      have := getItem_lookup_other st l k h
      rw [hgi] at this
      exact this
    cases p with
    | pipe steps =>
        cases hls : steps.getLast? with
        | none => simp only [hls]; exact hlk
        | some lastStep =>
            simp only [hls]
            by_cases hi : isInkMember lastStep i = true
            · rw [if_pos hi]; exact hlk
            · rw [if_neg hi]
              dsimp only
              rw [setItem_proc_lookup_other st1 l k _ h]
              exact hlk
    | noop a =>
        dsimp only
        rw [setItem_proc_lookup_other st1 l k _ h]
        exact hlk
    | atom t a =>
        dsimp only
        rw [setItem_proc_lookup_other st1 l k _ h]
        exact hlk
    | ink j =>
        dsimp only
        rw [setItem_proc_lookup_other st1 l k _ h]
        exact hlk

theorem applyInkBand_tail (st st1 : ForkState) (l : String) (i : InkE)
    (h : OverprintFork.applyInkBand st l i = (st1, none)) :
    bandInkTailB st1 l i = true := by
  unfold OverprintFork.applyInkBand at h
  cases hgi : st.getItem l with
  | mk p stg =>
    rw [hgi] at h
    have hself : lookupE stg.entries l = some p := by
      have := getItem_lookup_self st l
      rw [hgi] at this
      exact this
    cases p with
    | pipe steps =>
        cases hls : steps.getLast? with
        | none => simp only [hls] at h; simp at h
        | some lastStep =>
            simp only [hls] at h
            by_cases hi : isInkMember lastStep i = true
            · rw [if_pos hi] at h
              have h1 : stg = st1 := congrArg Prod.fst h
              subst h1
              simp [bandInkTailB, hself, hls, hi]
            · rw [if_neg hi] at h
              have h1 : stg.setItem l (.procA (.pipe (steps ++ [.ink i]))) = st1 :=
                congrArg Prod.fst h
              subst h1
              unfold bandInkTailB
              rw [setItem_proc_lookup_self]
              simp [List.getLast?_concat, isInkMember]
    | noop a =>
        dsimp only at h
        have h1 : stg.setItem l (.procA (.pipe [.noop a, .ink i])) = st1 :=
          congrArg Prod.fst h
        subst h1
        unfold bandInkTailB
        rw [setItem_proc_lookup_self,
            show [Proc.noop a, Proc.ink i] = [Proc.noop a] ++ [Proc.ink i] from rfl,
            ]
        simp [List.getLast?_concat, isInkMember]
    | atom t a =>
        dsimp only at h
        have h1 : stg.setItem l (.procA (.pipe [.atom t a, .ink i])) = st1 :=
          congrArg Prod.fst h
        subst h1
        unfold bandInkTailB
        rw [setItem_proc_lookup_self,
            show [Proc.atom t a, Proc.ink i] = [Proc.atom t a] ++ [Proc.ink i] from rfl,
            ]
        simp [List.getLast?_concat, isInkMember]
    | ink j =>
        dsimp only at h
        have h1 : stg.setItem l (.procA (.pipe [.ink j, .ink i])) = st1 :=
          congrArg Prod.fst h
        subst h1
        unfold bandInkTailB
        rw [setItem_proc_lookup_self,
            show [Proc.ink j, Proc.ink i] = [Proc.ink j] ++ [Proc.ink i] from rfl,
            ]
        simp [List.getLast?_concat, isInkMember]

theorem applyInkBand_stable (st : ForkState) (l : String) (i : InkE)
    (h : bandInkTailB st l i = true) :
    OverprintFork.applyInkBand st l i = (st, none) := by
  unfold bandInkTailB at h
  cases hl : lookupE st.entries l with
  | none => simp [hl] at h
  | some p =>
      simp only [hl] at h
      cases p with
      | pipe steps =>
          cases hls : steps.getLast? with
          | none => simp [hls] at h
          | some lastStep =>
              simp only [hls] at h
              unfold OverprintFork.applyInkBand ForkState.getItem
              simp only [hl]
              simp only [hls]
              rw [if_pos h]
      | noop a => simp at h
      | atom t a => simp at h
      | ink j => simp at h

/-- A successful `apply_CMYK_inks` loop over band/ink pairs with distinct
labels establishes the ink-tail invariant on every listed band, preserves
the mode and every unlisted key, and is a no-op when run again from the
resulting state. -/
theorem applyGo_props : ∀ (pairs : List (String × InkE)) (st st' : ForkState),
    pairs.Pairwise (fun a b => a.1 ≠ b.1) →
    OverprintFork.applyGo st pairs = (st', none) →
    (∀ pr ∈ pairs, bandInkTailB st' pr.1 pr.2 = true) ∧
    st'.mode_t = st.mode_t ∧
    (∀ k : String, (∀ pr ∈ pairs, k ≠ pr.1) → lookupE st'.entries k = lookupE st.entries k) ∧
    OverprintFork.applyGo st' pairs = (st', none)
  | [], st, st', _, h => by
      have h1 : st = st' := congrArg Prod.fst h
      subst h1
      exact ⟨by simp, rfl, fun _ _ => rfl, rfl⟩
  | (l, i) :: rest, st, st', hpw, h => by
      simp only [OverprintFork.applyGo] at h
      cases hb : OverprintFork.applyInkBand st l i with
      | mk s1 e =>
        rw [hb] at h
        cases e with
        | some e0 => simp at h
        | none =>
          simp only at h
          obtain ⟨hhead, hrest⟩ := List.pairwise_cons.mp hpw
          obtain ⟨ihTails, ihMode, ihFrame, ihStable⟩ := applyGo_props rest s1 st' hrest h
          have hs1mode : s1.mode_t = st.mode_t := by
            have := applyInkBand_mode st l i
            rw [hb] at this
            exact this
          have htail1 : bandInkTailB s1 l i = true := applyInkBand_tail st s1 l i hb
          have hlook : lookupE st'.entries l = lookupE s1.entries l :=
            ihFrame l (fun pr hpr => hhead pr hpr)
          have htail : bandInkTailB st' l i = true := by
            rw [bandInkTailB_congr s1 st' l i hlook]
            exact htail1
          refine ⟨?_, ?_, ?_, ?_⟩
          · intro pr hpr
            rcases List.mem_cons.mp hpr with hpr | hpr
            · rw [hpr]; exact htail
            · exact ihTails pr hpr
          · rw [ihMode, hs1mode]
          · intro k hk
            have hk1 : k ≠ l := hk (l, i) (List.mem_cons_self _ _)
            have := applyInkBand_lookup_other st l k i hk1
            rw [hb] at this
            rw [ihFrame k (fun pr hpr => hk pr (List.mem_cons_of_mem _ hpr))]
            exact this
          · simp only [OverprintFork.applyGo]
            rw [applyInkBand_stable st' l i htail]
            exact ihStable

/-- A state on which `apply_CMYK_inks` is a successful no-op stays fixed
under any number of further invocations. -/
theorem applyN_fixed (st' : ForkState)
    (h : OverprintFork.applyCMYKInks st' = (st', none)) :
    ∀ n, OverprintFork.applyN n st' = (st', none) := by
  intro n
  induction n with
  | zero => rfl
  | succ n ih =>
      simp only [OverprintFork.applyN, h]
      exact ih

/-! ### Loop-shape lemmas for the sequential and fork process loops -/

theorem pipeProcess_eq_foldl {α : Type} :
    ∀ (ps : List (α → α)) (image : α),
    Pipe.process ps image = ps.foldl (fun img p => p img) image
  | [], _ => rfl
  | p :: rest, image => pipeProcess_eq_foldl rest (p image)

theorem pipelineProcess_eq_foldl {α : Type} :
    ∀ (ps : List (α → α)) (image : α),
    Pipeline.process ps image = ps.foldl (fun img p => p img) image
  | [], _ => rfl
  | p :: rest, image => pipelineProcess_eq_foldl rest (p image)

theorem zipProcess_length {Img : Type} (run : Proc → Img → Img) :
    ∀ (labels : List String) (bands : List Img) (st : ForkState),
    (BandFork.zipProcess run st labels bands).1.length =
      min labels.length bands.length
  | [], bands, st => by simp [BandFork.zipProcess]
  | l :: ls, [], st => by
      unfold BandFork.zipProcess
      cases hgi : st.getItem l with
      | mk p st1 => simp
  | l :: ls, b :: bs, st => by
      unfold BandFork.zipProcess
      cases hgi : st.getItem l with
      | mk p st1 =>
        have ih := zipProcess_length run ls bs st1
        show (run p b :: (BandFork.zipProcess run st1 ls bs).1).length =
          min (l :: ls).length (b :: bs).length
        simp only [List.length_cons]
        omega

/-! ### Concrete states used by witnesses and counterexamples -/

/-- An empty RGB fork with a NOOp default factory. -/
def forkC2 : ForkState :=
  { entries := [], mode_t := .RGB, factory := .noopF, nextId := 0, calls := 0 }

/-- An empty RGB fork used for the `get` frame-effect witness. -/
def forkC10 : ForkState :=
  { entries := [], mode_t := .RGB, factory := .noopF, nextId := 0, calls := 0 }

/-- A fork whose mapping holds one NOOp processor under the band label R. -/
def forkC8 : ForkState :=
  { entries := [("R", .noop 0)], mode_t := .RGB, factory := .noopF, nextId := 1, calls := 0 }

/-- An empty CMYK fork used to exhibit the band-count truncation. -/
def forkC5 : ForkState :=
  { entries := [], mode_t := .CMYK, factory := .noopF, nextId := 0, calls := 0 }

/-- A split that produces three band outputs, one fewer than CMYK needs. -/
def splitC5 : List Nat → List (List Nat) := fun _ => [[1], [2], [3]]

/-- Per-processor behaviour that returns the band unchanged. -/
def runC5 : Proc → List Nat → List Nat := fun _ b => b

/-- A compose that concatenates the processed bands, so the output shows
how many bands were actually processed. -/
def composeC5 : List (List Nat) → List Nat := fun bs => bs.flatten

/-- A freshly constructed Overprint Fork with an external ditherer-style
default factory (`OverprintFork(SomeProcessor)` before `apply_CMYK_inks`). -/
def overprintC4 : ForkState :=
  { entries := [], mode_t := .CMYK, factory := .atomF 9, nextId := 0, calls := 0 }

/-- The state of `overprintC4` after one `apply_CMYK_inks`. -/
def overprintC4Applied : ForkState :=
  { entries := [("C", .pipe [.atom 9 0, .ink .CYAN]),
                ("M", .pipe [.atom 9 1, .ink .MAGENTA]),
                ("Y", .pipe [.atom 9 2, .ink .YELLOW]),
                ("K", .pipe [.atom 9 3, .ink .KEY])],
    mode_t := .CMYK, factory := .atomF 9, nextId := 4, calls := 4 }

/-- An Overprint Fork whose C band was assigned an empty Pipeline. -/
def overprintC4Cex : ForkState :=
  { entries := [("C", .pipe [])], mode_t := .CMYK, factory := .noopF, nextId := 0, calls := 0 }

/-! ### The claims -/

/-- C1: for every Pipeline (or Pipe) holding sub-processors `[p1..pn]` and
every image `I`, `process(I)` equals the left-to-right fold
`pn(...p2(p1(I))...)`, and for an empty pipeline `process(I)` returns `I`
unchanged. -/
theorem claim_pipeline_process_left_fold {α : Type} (ps : List (α → α)) (image : α) :
    Pipe.process ps image = ps.foldl (fun img p => p img) image ∧
    Pipeline.process ps image = ps.foldl (fun img p => p img) image ∧
    Pipe.process ([] : List (α → α)) image = image ∧
    Pipeline.process ([] : List (α → α)) image = image :=
  ⟨pipeProcess_eq_foldl ps image, pipelineProcess_eq_foldl ps image, rfl, rfl⟩

/-- C2: for a Fork and a key `k` not in its mapping, the first keyed lookup
of `k` invokes the default factory exactly once and memoizes the result,
and every subsequent lookup of `k` returns that same memoized instance
without invoking the factory again (the state, including the invocation
counter, stays fixed). -/
theorem claim_fork_autovivify (st : ForkState) (k : String)
    (h : lookupE st.entries k = none) :
    ((st.getItem k).2).calls = st.calls + 1 ∧
    lookupE ((st.getItem k).2).entries k = some (st.getItem k).1 ∧
    ((st.getItem k).2).getItem k = ((st.getItem k).1, (st.getItem k).2) := by
  have hhit : ∀ (s : ForkState) (v : Proc),
      lookupE s.entries k = some v → s.getItem k = (v, s) := by
    intro s v hv
    unfold ForkState.getItem
    rw [hv]
  refine ⟨?_, getItem_lookup_self st k, ?_⟩
  · unfold ForkState.getItem
    rw [h]
  · exact hhit _ _ (getItem_lookup_self st k)

/-- Witness for C2: a concrete empty fork and the band label G. -/
theorem claim_fork_autovivify_witness :
    lookupE forkC2.entries "G" = none ∧
    (((forkC2.getItem "G").2).calls = forkC2.calls + 1 ∧
     lookupE ((forkC2.getItem "G").2).entries "G" = some (forkC2.getItem "G").1 ∧
     ((forkC2.getItem "G").2).getItem "G" =
       ((forkC2.getItem "G").1, (forkC2.getItem "G").2)) :=
  ⟨rfl, claim_fork_autovivify forkC2 "G" rfl⟩

/-- C3: for every Overprint Fork (whose `mode_t` invariantly is CMYK) and
every mode value other than CMYK, assigning that value to the fork's mode
fails with the locked-state error, and the fork's mode and
band-to-processor assignments are exactly what they were before; assigning
CMYK itself is an error-free no-op. -/
theorem claim_overprint_mode_locked (es : List (String × Proc)) (f : Factory)
    (nid cc : Nat) (m : Mode) :
    OverprintFork.setMode
        { entries := es, mode_t := Mode.CMYK, factory := f, nextId := nid, calls := cc }
        (.modeV m) =
      ({ entries := es, mode_t := Mode.CMYK, factory := f, nextId := nid, calls := cc },
       if m = Mode.CMYK then none else some Err.modeLocked) := by
  cases m <;> rfl

/-- C4 counterexample: an Overprint Fork one of whose bands was assigned an
empty Pipeline.  Invoking `apply_CMYK_inks` once (n = 1) raises IndexError
from `processor[-1]` instead of leaving a pipeline with an ink tail on
every band. -/
theorem claim_overprint_apply_inks_counterexample :
    OverprintFork.applyN 1 overprintC4Cex = (overprintC4Cex, some Err.indexError) ∧
    bandInkTailB overprintC4Cex "C" InkE.CYAN = false :=
  ⟨rfl, rfl⟩

/-- C4 (amended): for every Overprint Fork on which one invocation of
`apply_CMYK_inks` completes without error — i.e. no band holds an empty
pipeline — invoking it `n` times for any `n ≥ 1` yields the same state as
invoking it once, with every band's processor a pipeline whose tail is the
ink variant matching that band; invocations after the first never append a
second ink step. -/
theorem claim_overprint_apply_inks_idempotent (st st' : ForkState)
    (hmode : st.mode_t = Mode.CMYK)
    (happly : OverprintFork.applyCMYKInks st = (st', none)) :
    (∀ n : Nat, OverprintFork.applyN (n + 1) st = (st', none)) ∧
    bandInkTailB st' "C" InkE.CYAN = true ∧
    bandInkTailB st' "M" InkE.MAGENTA = true ∧
    bandInkTailB st' "Y" InkE.YELLOW = true ∧
    bandInkTailB st' "K" InkE.KEY = true := by
  have hzip : st.mode_t.bands.zip CMYKInkCMYK =
      [("C", InkE.CYAN), ("M", InkE.MAGENTA), ("Y", InkE.YELLOW), ("K", InkE.KEY)] := by
    rw [hmode]; rfl
  have hgo : OverprintFork.applyGo st
      [("C", InkE.CYAN), ("M", InkE.MAGENTA), ("Y", InkE.YELLOW), ("K", InkE.KEY)] =
      (st', none) := by
    have h0 := happly
    unfold OverprintFork.applyCMYKInks at h0
    rw [hzip] at h0
    exact h0
  have hpw : ([("C", InkE.CYAN), ("M", InkE.MAGENTA), ("Y", InkE.YELLOW),
      ("K", InkE.KEY)]).Pairwise (fun a b => a.1 ≠ b.1) := by
    simp [List.pairwise_cons]
  obtain ⟨tails, hmode', hframe, hstable⟩ := applyGo_props _ st st' hpw hgo
  have happly' : OverprintFork.applyCMYKInks st' = (st', none) := by
    unfold OverprintFork.applyCMYKInks
    rw [show st'.mode_t.bands.zip CMYKInkCMYK =
        [("C", InkE.CYAN), ("M", InkE.MAGENTA), ("Y", InkE.YELLOW), ("K", InkE.KEY)] from by
      rw [hmode', hmode]; rfl]
    exact hstable
  refine ⟨?_, ?_, ?_, ?_, ?_⟩
  · intro n
    simp only [OverprintFork.applyN, happly]
    exact applyN_fixed st' happly' n
  · exact tails ("C", InkE.CYAN) (by simp)
  · exact tails ("M", InkE.MAGENTA) (by simp)
  · exact tails ("Y", InkE.YELLOW) (by simp)
  · exact tails ("K", InkE.KEY) (by simp)

/-- Witness for C4 at a concrete Overprint Fork with a dithering-style
default factory. -/
theorem claim_overprint_apply_inks_idempotent_witness :
    overprintC4.mode_t = Mode.CMYK ∧
    OverprintFork.applyCMYKInks overprintC4 = (overprintC4Applied, none) ∧
    ((∀ n : Nat, OverprintFork.applyN (n + 1) overprintC4 = (overprintC4Applied, none)) ∧
     bandInkTailB overprintC4Applied "C" InkE.CYAN = true ∧
     bandInkTailB overprintC4Applied "M" InkE.MAGENTA = true ∧
     bandInkTailB overprintC4Applied "Y" InkE.YELLOW = true ∧
     bandInkTailB overprintC4Applied "K" InkE.KEY = true) :=
  ⟨rfl, rfl,
   claim_overprint_apply_inks_idempotent overprintC4 overprintC4Applied rfl rfl⟩

/-- C5 counterexample: a CMYK Band Fork (four band labels, so four resolved
processors) whose split yields only three band outputs.  The call completes
normally and composes exactly the three truncated bands — it does not fail,
while the spec-modelled checked version signals the claimed
BandMismatchError on the same input. -/
theorem claim_bandfork_mismatch_counterexample :
    (BandFork.processWith runC5 splitC5 composeC5 forkC5 []).1 = [1, 2, 3] ∧
    (forkC5.band_labels).length = 4 ∧
    (splitC5 []).length = 3 ∧
    BandFork.processSpecChecked runC5 splitC5 composeC5 forkC5 [] =
      .error .bandMismatch :=
  ⟨rfl, rfl, rfl, rfl⟩

/-- C5 (amended): `BandFork.process` never fails on a band-count mismatch:
it composes exactly the zip of the resolved processors with the split
outputs, whose length is the minimum of the two counts — the longer side
is silently truncated. -/
theorem claim_bandfork_process_truncates {Img : Type} (run : Proc → Img → Img)
    (split : Img → List Img) (compose : List Img → Img)
    (st : ForkState) (image : Img) :
    BandFork.processWith run split compose st image =
      (compose (BandFork.zipProcess run st st.mode_t.bands (split image)).1,
       (BandFork.zipProcess run st st.mode_t.bands (split image)).2) ∧
    (BandFork.zipProcess run st st.mode_t.bands (split image)).1.length =
      min st.mode_t.bands.length (split image).length :=
  ⟨rfl, zipProcess_length run _ _ st⟩

/-- C6: the Band Fork mode setter accepts a mode value or a resolvable name
string and on success installs the new mode (band_labels re-derives to the
new mode's canonical band sequence, last conjunct); any other value fails
with a type error and leaves the fork, including its mode and hence its
band labels, unchanged. -/
theorem claim_bandfork_mode_setter (st : ForkState) (v : MVal) :
    BandFork.setMode st v =
      (match v with
       | .modeV m => ({ st with mode_t := m }, none)
       | .strV s =>
           (match Mode.forString s with
            | some m => ({ st with mode_t := m }, none)
            | none => (st, some Err.typeError))
       | .otherV _ => (st, some Err.typeError)) ∧
    ∀ m : Mode, ForkState.band_labels { st with mode_t := m } = m.bands := by
  constructor
  · cases v with
    | modeV m =>
        simp only [BandFork.setMode, modeSetter, BandFork.set_mode_t]
        by_cases hm : m = st.mode_t
        · rw [if_neg (fun hc => hc hm), hm]
        · rw [if_pos hm]
    | strV s =>
        cases hf : Mode.forString s with
        | none => simp [BandFork.setMode, modeSetter, hf]
        | some m =>
            simp only [BandFork.setMode, modeSetter, BandFork.set_mode_t, hf]
            by_cases hm : m = st.mode_t
            · rw [if_neg (fun hc => hc hm), hm]
            · rw [if_pos hm]
    | otherV t => rfl
  · intro m
    rfl

/-- C7 counterexample: the cyan ink processor maps the gray level 0 pixel
to `(255,255,255)` — the value-0 WHITE variant's color — not to black as
the claim's reading would, so the two disagree on the one-pixel image
`[0]`. -/
theorem claim_ink_process_black_low_counterexample :
    Ink.process .CYAN [0] = [(255, 255, 255)] ∧
    Ink.processSpecBlackLow .CYAN [0] = [(0, 0, 0)] ∧
    Ink.process .CYAN [0] ≠ Ink.processSpecBlackLow .CYAN [0] := by
  refine ⟨by decide, by decide, by decide⟩

/-- C7 (amended): for every ink Variant-Processor and every grayscale
input, `process` returns the grayscale rendering colorized on a scale
between white `(255,255,255)` — the value-0 WHITE variant's color — as the
low end and the variant's own resolved color as the high end (in
particular gray 0 maps to white and gray 255 to the variant's color). -/
theorem claim_ink_process_white_low (i : InkE) (image : List Nat) :
    Ink.process i image = colorize image (255, 255, 255) i.rgb ∧
    Ink.process i [0, 255] = [(255, 255, 255), i.rgb] := by
  refine ⟨rfl, ?_⟩
  cases i <;> decide

/-- C8 counterexample: a Fork storing one NOOp processor under the key R.
Membership tests the keys: the stored processor itself tests false even
though it is one of the contained processors, while the key string R tests
true. -/
theorem claim_fork_contains_counterexample :
    ForkState.containsV forkC8 (.proc (.noop 0)) = false ∧
    (Proc.noop 0) ∈ forkC8.entries.map Prod.snd ∧
    ForkState.containsV forkC8 (.str "R") = true := by
  refine ⟨rfl, ?_, rfl⟩
  simp [forkC8]

/-- C8 (amended): membership on the sequence containers (Pipe, Pipeline)
is a test over the contained sub-processors, but membership on a Fork is a
test over the mapping's keys — a processor value always tests false. -/
theorem claim_fork_contains_keys (st : ForkState) (s : String) (p : Proc)
    (steps : List Proc) :
    (ForkState.containsV st (.str s) = true ↔ s ∈ st.keys) ∧
    ForkState.containsV st (.proc p) = false ∧
    (Pipeline.containsV steps p = true ↔ p ∈ steps) := by
  refine ⟨?_, rfl, ?_⟩
  · simp [ForkState.containsV, List.any_eq_true]
  · simp [Pipeline.containsV, List.any_eq_true]

/-- C9: constructing a Fork with a non-callable default factory other than
the `None` / `NOOp` sentinel fails immediately with the constructor error
and produces no object at all, while `None`, the `NOOp` class, and every
other callable succeed. -/
theorem claim_fork_init_factory_check (t : Nat) (init : List (String × Proc))
    (m : Mode) (f : Factory) :
    Fork.init (.nonCallableArg t) init m = .error .attributeError ∧
    Fork.init .noneArg init m =
      .ok { entries := init, mode_t := m, factory := .noopF, nextId := 0, calls := 0 } ∧
    Fork.init .noopClassArg init m =
      .ok { entries := init, mode_t := m, factory := .noopF, nextId := 0, calls := 0 } ∧
    Fork.init (.callableArg f) init m =
      .ok { entries := init, mode_t := m, factory := f, nextId := 0, calls := 0 } :=
  ⟨rfl, rfl, rfl, rfl⟩

/-- C10: for a key `k` absent from a Fork's mapping and any default `d`,
`get(k, d)` returns `d` with the fork state — entries, key set, factory
call counter — exactly unchanged, whereas keyed lookup on the same state
grows the mapping by one entry. -/
theorem claim_fork_get_no_vivification (st : ForkState) (k : String) (d : Proc)
    (h : lookupE st.entries k = none) :
    ForkState.get st k d = (d, st) ∧
    ((st.getItem k).2).entries.length = st.entries.length + 1 := by
  constructor
  · unfold ForkState.get
    rw [h]
    rfl
  · unfold ForkState.getItem
    rw [h]
    exact updE_length_missing st.entries k _ h

/-- Witness for C10: a concrete empty fork, the key K and a NOOp default. -/
theorem claim_fork_get_no_vivification_witness :
    lookupE forkC10.entries "K" = none ∧
    (ForkState.get forkC10 "K" (.noop 7) = (.noop 7, forkC10) ∧
     ((forkC10.getItem "K").2).entries.length = forkC10.entries.length + 1) :=
  ⟨rfl, claim_fork_get_no_vivification forkC10 "K" (.noop 7) rfl⟩

end Instakit
